import Mathlib

/-!
Verification of the OCR orchestration pipeline of
`markitdown/converters/_advanced_optimized_pdf_ocr_converter.py`.

The Python source is shallowly embedded: pure computations become Lean
functions over `Nat`/`ℚ`/`String`; the mutable model-performance map and the
on-disk result cache become explicit state values threaded through the
functions; the fallible HTTP vision attempt becomes a function over an
abstract outcome datatype.  Python `float` arithmetic is modelled by exact
rational arithmetic, Python's stable `list.sort` / `sorted` by stable
insertion sort, and Python string truthiness (`if s:`) by `s ≠ ""`.
-/

namespace MarkItDown

/-! ### ModelPerformanceTracker (source lines 38–105)

`performance_data` is a `defaultdict` from model name to a per-model record;
it is modelled as a total function `String → PerfRecord` whose value at a
never-touched model is the default zero record (exactly the `defaultdict`
default, which also makes the `model not in self.performance_data` early
return of `score_model` coincide with the `total_attempts == 0` one). -/

structure PerfRecord where
  success_count : Nat
  failure_count : Nat
  avg_response_time : ℚ
  last_used : ℚ
deriving DecidableEq, Repr

def zeroPerfRecord : PerfRecord :=
  { success_count := 0, failure_count := 0, avg_response_time := 0, last_used := 0 }

abbrev PerfData := String → PerfRecord

/-- Source `ModelPerformanceTracker.record_success` (lines 69–79): bump
`success_count`, stamp `last_used`, and fold `response_time` into the running
average using the post-increment total attempt count. -/
def record_success (perf : PerfData) (model : String) (response_time now : ℚ) : PerfData :=
  fun m =>
    if m = model then
      let d := perf model
      let success_count := d.success_count + 1
      let total_attempts : ℚ := (success_count : ℚ) + (d.failure_count : ℚ)
      { d with
        success_count := success_count
        last_used := now
        avg_response_time :=
          (d.avg_response_time * (total_attempts - 1) + response_time) / total_attempts }
    else perf m

/-- Source `ModelPerformanceTracker.record_failure` (lines 81–85): bump
`failure_count` and stamp `last_used`; nothing else is touched. -/
def record_failure (perf : PerfData) (model : String) (now : ℚ) : PerfData :=
  fun m =>
    if m = model then
      let d := perf model
      { d with failure_count := d.failure_count + 1, last_used := now }
    else perf m

/-- Source `score_model` inside `get_model_rankings` (lines 89–103): zero when
the model has no recorded attempts, otherwise
`success_rate * (60.0 / max(avg_time, 1.0))` where `avg_time` falls back to
`60.0` when the stored average is not positive. -/
def score_model (perf : PerfData) (model : String) : ℚ :=
  let d := perf model
  let total_attempts := d.success_count + d.failure_count
  if total_attempts = 0 then 0
  else
    let success_rate : ℚ := (d.success_count : ℚ) / (total_attempts : ℚ)
    let avg_time : ℚ := if 0 < d.avg_response_time then d.avg_response_time else 60
    success_rate * (60 / max avg_time 1)

/-- Descending comparison used by `sorted(models, key=score_model, reverse=True)`. -/
def rank_le (perf : PerfData) (a b : String) : Prop :=
  score_model perf b ≤ score_model perf a

instance (perf : PerfData) : DecidableRel (rank_le perf) :=
  fun _ _ => inferInstanceAs (Decidable (_ ≤ _))

instance (perf : PerfData) : IsTotal String (rank_le perf) :=
  ⟨fun a b => le_total (score_model perf b) (score_model perf a)⟩

instance (perf : PerfData) : IsTrans String (rank_le perf) :=
  ⟨fun _ _ _ hab hbc => le_trans hbc hab⟩

/-- Source `get_model_rankings` (lines 87–105): Python's `sorted` with
`reverse=True` is a stable descending sort, modelled by stable insertion
sort under the descending relation `rank_le`. -/
def get_model_rankings (perf : PerfData) (models : List String) : List String :=
  List.insertionSort (rank_le perf) models

/-- The ranking score exactly as claim C6 words it: `0` for a model with no
recorded attempts, otherwise `success_rate * (60 / max(avg_response_time, 1))`
with no fallback for a non-positive stored average. -/
def score_model_claim (perf : PerfData) (model : String) : ℚ :=
  let d := perf model
  let total_attempts := d.success_count + d.failure_count
  if total_attempts = 0 then 0
  else ((d.success_count : ℚ) / (total_attempts : ℚ)) * (60 / max d.avg_response_time 1)

/-- The ranking score as amended: the effective average response time is the
stored average when that is positive and 60 seconds otherwise, and the score
is `success_rate * (60 / max(effective_avg, 1))`. -/
def score_model_amended (perf : PerfData) (model : String) : ℚ :=
  let d := perf model
  let total_attempts := d.success_count + d.failure_count
  if total_attempts = 0 then 0
  else
    let effective_avg : ℚ := if 0 < d.avg_response_time then d.avg_response_time else 60
    ((d.success_count : ℚ) / (total_attempts : ℚ)) * (60 / max effective_avg 1)

/-- Tracker state separating the code's score from the claim's: model `"a"`
has one success with a stored average response time of `0`, model `"b"` one
success with average `30`. -/
def perf_zero_avg : PerfData := fun m =>
  if m = "a" then { success_count := 1, failure_count := 0, avg_response_time := 0, last_used := 0 }
  else if m = "b" then
    { success_count := 1, failure_count := 0, avg_response_time := 30, last_used := 0 }
  else zeroPerfRecord

/-! ### ImageQualityAssessor (source lines 107–142)

The numeric metrics (pixel count, grayscale standard deviation, Laplacian
variance, edge fraction, high-pass standard deviation) are opaque inputs
here; the embedding captures the score combination.  A `none` input stands
for the `except` branch of `assess_image_quality`. -/

structure QualityMetricsInput where
  resolution : ℚ
  contrast : ℚ
  brightness : ℚ
  sharpness : ℚ
  text_density : ℚ
  noise_level : ℚ
deriving DecidableEq, Repr

/-- The weighted-capped sum computed at source lines 128–134. -/
def quality_score_raw (m : QualityMetricsInput) : ℚ :=
  min (m.resolution / 1000000) 30 +
    min (m.contrast / 50) 20 +
    min (m.sharpness / 100) 25 +
    min (m.text_density * 100) 15 +
    max 0 (10 - m.noise_level / 10)

/-- Source `assess_image_quality` (lines 111–142): on success the capped sum
clamped into `[0, 100]` (line 136), on any internal failure the neutral
default `50` (line 142). -/
def assess_image_quality : Option QualityMetricsInput → ℚ
  | none => 50
  | some m => min 100 (max 0 (quality_score_raw m))

/-- The score formula as the specification words it, written independently of
the source translation for comparison: each contribution capped before
summing. -/
def quality_score_spec (resolution contrast sharpness text_density noise : ℚ) : ℚ :=
  min (resolution / 1000000) 30 + min (contrast / 50) 20 + min (sharpness / 100) 25 +
    min (text_density * 100) 15 + max 0 (10 - noise / 10)

/-! ### Python string helpers -/

/-- The characters removed by Python's `str.strip()` (ASCII whitespace). -/
def pyIsSpace (c : Char) : Bool :=
  c = ' ' || c = '\t' || c = '\n' || c = '\r' || c = '\x0b' || c = '\x0c'

/-- Python `str.strip()`: drop leading and trailing whitespace. -/
def pyStrip (s : String) : String :=
  String.mk (((s.data.dropWhile pyIsSpace).reverse.dropWhile pyIsSpace).reverse)

/-! ### Segment text recombination (source lines 902–918) -/

/-- The ascending comparison by segment index used by
`segment_texts.sort(key=lambda x: x[0])`. -/
def idx_le (a b : Nat × String) : Prop := a.1 ≤ b.1

instance : DecidableRel idx_le :=
  fun _ _ => inferInstanceAs (Decidable (_ ≤ _))

instance : IsTotal (Nat × String) idx_le :=
  ⟨fun a b => Nat.le_total a.1 b.1⟩

instance : IsTrans (Nat × String) idx_le :=
  ⟨fun _ _ _ => Nat.le_trans⟩

/-- Source `_combine_segment_texts`: stable-sort the `(index, text)` pairs by
index (`list.sort(key=lambda x: x[0])`), keep the stripped texts that are
non-empty, and join them with a blank line. -/
def combine_segment_texts (segment_texts : List (Nat × String)) : String :=
  let sorted := List.insertionSort idx_le segment_texts
  String.intercalate "\n\n" ((sorted.map fun p => pyStrip p.2).filter fun t => t ≠ "")

/-! ### Vision-model attempts (source lines 801–878, and 721–799 for segments)

One HTTP attempt against one model either raises (`exc`) or yields a status
code together with the `message.content` fragments parsed out of the
(possibly streamed) response body.  The embedding keeps the parsed fragment
list abstract and models the branch structure of the loop body of
`_process_single_image_advanced` exactly. -/

inductive AttemptOutcome where
  | http (status : Nat) (content_parts : List String)
  | exc
deriving DecidableEq, Repr

/-- One iteration of the model loop of `_process_single_image_advanced`
(lines 814–871): a 200 response with non-empty parts whose concatenation
strips to non-empty text records a success and returns that text; a non-200
response or an exception records a failure; a 200 response with no parts or
whitespace-only text falls through without touching the tracker. -/
def run_attempt (perf : PerfData) (model : String) (o : AttemptOutcome)
    (response_time now : ℚ) : Option String × PerfData :=
  match o with
  | .exc => (none, record_failure perf model now)
  | .http status content_parts =>
    if status = 200 then
      if content_parts ≠ [] then
        let text := pyStrip (String.join content_parts)
        if text ≠ "" then (some text, record_success perf model response_time now)
        else (none, perf)
      else (none, perf)
    else (none, record_failure perf model now)

/-- The text produced by a single attempt, independent of the tracker. -/
def attempt_text : AttemptOutcome → Option String
  | .exc => none
  | .http status content_parts =>
    if status = 200 ∧ content_parts ≠ [] ∧ pyStrip (String.join content_parts) ≠ "" then
      some (pyStrip (String.join content_parts))
    else none

/-- An attempt bundles the model name tried with its outcome and the observed
response time and wall-clock instant (the loop's `response_time` and
`time.time()`). -/
abbrev Attempt := String × AttemptOutcome × ℚ × ℚ

/-- Source `_process_single_image_advanced` (lines 801–878): walk the ranked
model list, returning the first successfully extracted text with method
string `"Advanced Vision OCR (<model>)"`; if every model fails, return the
empty string with method `"Advanced Vision OCR failed"` (lines 873–874). -/
def process_single_image_advanced (perf : PerfData) :
    List Attempt → String × String × PerfData
  | [] => ("", "Advanced Vision OCR failed", perf)
  | (model, o, response_time, now) :: rest =>
    match run_attempt perf model o response_time now with
    | (some text, perf1) => (text, "Advanced Vision OCR (" ++ model ++ ")", perf1)
    | (none, perf1) => process_single_image_advanced perf1 rest

/-! ### Result cache (source lines 289–327)

The cache directory is modelled as a map from cache key to file contents;
`_get_cached_result` and `_save_cached_result` guard on `enable_caching`.
The key→filename map (`f"{cache_key}.txt"`) is injective in the key, so the
key itself indexes the store. -/

abbrev Cache := String → Option String

structure ConvCfg where
  enable_caching : Bool
  fallback_to_tesseract : Bool
deriving DecidableEq, Repr

/-- Source `_get_cached_result` (lines 302–315): `None` when caching is
disabled or the file is absent (a read error also yields `None`, which the
map abstraction represents as an absent entry). -/
def get_cached_result (cfg : ConvCfg) (cache : Cache) (cache_key : String) : Option String :=
  if cfg.enable_caching then cache cache_key else none

/-- Source `_save_cached_result` (lines 317–327): write-through under the key
when caching is enabled, no-op otherwise. -/
def save_cached_result (cfg : ConvCfg) (cache : Cache) (cache_key result : String) : Cache :=
  if cfg.enable_caching then (fun k => if k = cache_key then some result else cache k)
  else cache

/-- Source `_extract_text_with_tesseract` (lines 920–936): empty when the
Tesseract fallback is disabled (or the engine errors, representable by an
empty raw output), otherwise the engine's raw output stripped. -/
def extract_text_with_tesseract (cfg : ConvCfg) (raw : String) : String :=
  if cfg.fallback_to_tesseract then pyStrip raw else ""

/-! ### Per-page pipeline (source lines 393–472)

A page's environment fixes everything the loop body observes about the
outside world for that page: the content-hash cache key of its optimized
image, the raw Tesseract output for it, the ranked vision attempts it would
make, and its assessed quality score.  This models pages whose optimized
image does not exceed `segment_size`, i.e. the `_process_single_image_advanced`
branch of `_process_image_with_advanced_vision_ocr` (lines 612–624). -/

structure PageEnv where
  cacheKey : String
  tesseractRaw : String
  attempts : List Attempt
  qualityScore : ℚ

/-- One iteration of the page loop (source lines 408–434): cache hit
short-circuits (`if cached_result:` — Python truthiness, so a `None` or
empty cached value falls through); otherwise Tesseract text is accepted when
its stripped length exceeds 50; otherwise the ranked vision attempt runs;
finally a non-empty page text is written back to the cache. -/
def page_step (cfg : ConvCfg) (perf : PerfData) (cache : Cache) (env : PageEnv) :
    String × String × PerfData × Cache :=
  let cached_result := get_cached_result cfg cache env.cacheKey
  if cached_result.getD "" ≠ "" then
    (cached_result.getD "", "Cached Result", perf, cache)
  else
    let traditional_text := extract_text_with_tesseract cfg env.tesseractRaw
    let step :=
      if traditional_text ≠ "" ∧ (pyStrip traditional_text).length > 50 then
        (traditional_text, "Traditional OCR (Tesseract)", perf)
      else
        process_single_image_advanced perf env.attempts
    let cache1 :=
      if step.1 ≠ "" then save_cached_result cfg cache env.cacheKey step.1 else cache
    (step.1, step.2.1, step.2.2, cache1)

/-- The page loop of `_process_image_based_pdf_advanced` (lines 405–442),
threading the tracker and cache states page by page and collecting each
page's `(page_text, processing_method)`. -/
def process_pages (cfg : ConvCfg) (perf : PerfData) (cache : Cache) :
    List PageEnv → List (String × String) × PerfData × Cache
  | [] => ([], perf, cache)
  | env :: rest =>
    let s := page_step cfg perf cache env
    let r := process_pages cfg s.2.2.1 s.2.2.2 rest
    ((s.1, s.2.1) :: r.1, r.2)

/-- Source line 442: the separator appended after page `page_num` (zero
based) when it is not the last page. -/
def page_separator (page_num : Nat) : String :=
  "\n\n--- Page " ++ toString (page_num + 2) ++ " ---\n\n"

/-- Source lines 436–445: page texts are accumulated into `all_text` with a
separator after every non-final page, then concatenated. -/
def combine_page_texts_from (page_num : Nat) : List String → String
  | [] => ""
  | [t] => t
  | t :: t2 :: rest =>
    t ++ page_separator page_num ++ combine_page_texts_from (page_num + 1) (t2 :: rest)

structure PdfMetadata where
  processing_methods : List String
  total_pages : Nat
  quality_scores : List ℚ

structure DocumentConverterResult where
  markdown : String
  metadata : Option PdfMetadata := none

/-- The metadata dictionary built at source lines 448–462 (per-page
processing methods, page count, per-page quality data). -/
def build_image_pdf_metadata (envs : List PageEnv) (pages : List (String × String)) :
    PdfMetadata :=
  { processing_methods := pages.map Prod.snd
    total_pages := envs.length
    quality_scores := envs.map fun e => e.qualityScore }

/-- Source `_process_image_based_pdf_advanced` (lines 393–472): run every
page, join the texts with the page separators, build the metadata
dictionary — and construct the result from the markdown alone (lines
464–467): the built metadata is not attached. -/
def process_image_based_pdf_advanced (cfg : ConvCfg) (perf : PerfData) (cache : Cache)
    (envs : List PageEnv) : DocumentConverterResult :=
  let r := process_pages cfg perf cache envs
  let combined_text := combine_page_texts_from 0 (r.1.map Prod.fst)
  let _metadata := build_image_pdf_metadata envs r.1
  { markdown := combined_text, metadata := none }

/-- A page on which the OCR pipeline produces nothing: the cache lookup is
not a truthy hit, the Tesseract text is absent or at most 50 characters long
once stripped, and every ranked vision attempt fails. -/
def page_totally_fails (cfg : ConvCfg) (cache : Cache) (env : PageEnv) : Prop :=
  (get_cached_result cfg cache env.cacheKey).getD "" = "" ∧
  (extract_text_with_tesseract cfg env.tesseractRaw = "" ∨
    (pyStrip (extract_text_with_tesseract cfg env.tesseractRaw)).length ≤ 50) ∧
  ∀ a ∈ env.attempts, attempt_text a.2.1 = none

instance (cfg : ConvCfg) (cache : Cache) (env : PageEnv) :
    Decidable (page_totally_fails cfg cache env) :=
  inferInstanceAs (Decidable (_ ∧ _ ∧ _))

/-- Default converter configuration: caching and Tesseract fallback on. -/
def cfg_all_on : ConvCfg := { enable_caching := true, fallback_to_tesseract := true }

def empty_perf : PerfData := fun _ => zeroPerfRecord

def empty_cache : Cache := fun _ => none

/-- A page whose Tesseract text is non-empty but short (5 characters, below
the 50-character acceptance threshold) and whose only ranked vision attempt
gets an HTTP 500. -/
def env_short_tesseract : PageEnv :=
  { cacheKey := "k1"
    tesseractRaw := "hello"
    attempts := [("llama3.2-vision:latest", .http 500 [], 1, 1)]
    qualityScore := 50 }

/-- A page whose Tesseract text is long enough to be accepted outright. -/
def env_good : PageEnv :=
  { cacheKey := "pg"
    tesseractRaw := "AAAAAAAAAAAAAAAAAAAAAAAAAAAAAAAAAAAAAAAAAAAAAAAAAAAAAAA"
    attempts := []
    qualityScore := 80 }

/-- A page on which every stage fails: cache miss, empty Tesseract output,
one failing vision attempt. -/
def env_fail : PageEnv :=
  { cacheKey := "pf"
    tesseractRaw := ""
    attempts := [("llava:latest", .http 500 [], 1, 1)]
    qualityScore := 20 }

/-- A different totally-failing page environment (the attempt raises instead
of returning a status). -/
def env_fail2 : PageEnv :=
  { cacheKey := "pf"
    tesseractRaw := " \t "
    attempts := [("minicpm-v:latest", .exc, 2, 3)]
    qualityScore := 10 }

/-! ### Segmenter (source lines 646–670) -/

def segCols (width segment_size : Nat) : Nat := max 1 (width / segment_size)

def segRows (height segment_size : Nat) : Nat := max 1 (height / segment_size)

structure SegBox where
  left : Nat
  top : Nat
  right : Nat
  bottom : Nat
deriving DecidableEq, Repr

/-- The crop box built in the loop body of `_create_image_segments` for grid
cell `(row, col)`: uniform cell size `width // cols × height // rows`, the
last column and row extended to the image edge. -/
def segBox (width height segment_size row col : Nat) : SegBox :=
  let cols := segCols width segment_size
  let rows := segRows height segment_size
  let segment_width := width / cols
  let segment_height := height / rows
  { left := col * segment_width
    top := row * segment_height
    right := if col < cols - 1 then col * segment_width + segment_width else width
    bottom := if row < rows - 1 then row * segment_height + segment_height else height }

/-- Source `_create_image_segments` (lines 646–670): the row-major list of
crop boxes of the `rows × cols` grid. -/
def create_image_segments (width height segment_size : Nat) : List SegBox :=
  (List.range (segRows height segment_size)).flatMap fun row =>
    (List.range (segCols width segment_size)).map fun col =>
      segBox width height segment_size row col

/-- Pixel `(x, y)` lies in the crop box `b` (PIL `crop` boxes are half-open
on the right and bottom). -/
def inSegBox (b : SegBox) (x y : Nat) : Prop :=
  b.left ≤ x ∧ x < b.right ∧ b.top ≤ y ∧ y < b.bottom

instance (b : SegBox) (x y : Nat) : Decidable (inSegBox b x y) :=
  inferInstanceAs (Decidable (_ ∧ _ ∧ _ ∧ _))

/-! ## Theorems -/

/-- C10: `record_failure` increments only `failure_count` and stamps
`last_used`, leaving `success_count` and `avg_response_time` (and every
other model's record) unchanged — a failed attempt never contributes its
elapsed time to the average; only `record_success` updates
`avg_response_time`, by the incremental-average formula. -/
theorem record_failure_only_counts_failures (perf : PerfData) (model : String)
    (response_time now : ℚ) :
    (record_failure perf model now model).failure_count = (perf model).failure_count + 1 ∧
    (record_failure perf model now model).last_used = now ∧
    (record_failure perf model now model).success_count = (perf model).success_count ∧
    (record_failure perf model now model).avg_response_time = (perf model).avg_response_time ∧
    (∀ m, m ≠ model → record_failure perf model now m = perf m) ∧
    (record_success perf model response_time now model).avg_response_time =
      ((perf model).avg_response_time *
          ((((perf model).success_count : ℚ) + 1 + ((perf model).failure_count : ℚ)) - 1) +
        response_time) /
        (((perf model).success_count : ℚ) + 1 + ((perf model).failure_count : ℚ)) := by
  refine ⟨?_, ?_, ?_, ?_, ?_, ?_⟩
  · simp [record_failure]
  · simp [record_failure]
  · simp [record_failure]
  · simp [record_failure]
  · intro m hm; simp [record_failure, hm]
  · simp [record_success]

/-- Witness for C10 at a concrete tracker state. -/
theorem record_failure_only_counts_failures_witness :
    (record_failure (fun _ => zeroPerfRecord) "m" 2 "m").failure_count = 0 + 1 ∧
    (record_failure (fun _ => zeroPerfRecord) "m" 2 "m").avg_response_time = 0 :=
  have h := record_failure_only_counts_failures (fun _ => zeroPerfRecord) "m" 1 2
  ⟨h.1, h.2.2.2.1⟩

/-- C9: with caching enabled, storing a text under a cache key and then
retrieving that key returns exactly the stored text. -/
theorem cache_store_then_retrieve (cfg : ConvCfg) (cache : Cache) (cache_key result : String)
    (h : cfg.enable_caching = true) :
    get_cached_result cfg (save_cached_result cfg cache cache_key result) cache_key =
      some result := by
  simp [get_cached_result, save_cached_result, h]

/-- Witness for C9 at a concrete cache state and key. -/
theorem cache_store_then_retrieve_witness :
    get_cached_result ⟨true, true⟩
        (save_cached_result ⟨true, true⟩ (fun _ => none) "d41d8cd9" "extracted text")
        "d41d8cd9" = some "extracted text" :=
  cache_store_then_retrieve ⟨true, true⟩ (fun _ => none) "d41d8cd9" "extracted text" rfl

/-- C4: the quality score always lies in `[0, 100]`; when the metric
computations succeed it equals the specification's formula (each term capped
before summing, the total clamped into `[0, 100]`), and on any internal
failure it is the neutral default `50`. -/
theorem assess_image_quality_score (o : Option QualityMetricsInput) :
    0 ≤ assess_image_quality o ∧ assess_image_quality o ≤ 100 ∧
    (∀ m, o = some m →
      assess_image_quality o =
        min 100 (max 0
          (quality_score_spec m.resolution m.contrast m.sharpness m.text_density
            m.noise_level))) ∧
    (o = none → assess_image_quality o = 50) := by
  cases o with
  | none =>
    refine ⟨by norm_num [assess_image_quality], by norm_num [assess_image_quality], ?_, fun _ => rfl⟩
    intro m hm
    exact Option.noConfusion hm
  | some m =>
    refine ⟨le_min (by norm_num) (le_max_left 0 _), min_le_left _ _, ?_, ?_⟩
    · intro m2 hm
      cases hm
      rfl
    · intro h
      exact Option.noConfusion h

/-- C6 counterexample: on `perf_zero_avg` the code ranks `"b"` before `"a"`
(code scores `2` vs `1`, the zero stored average being replaced by `60`),
while the claim's score formula gives `"a"` the strictly larger score
(`60` vs `2`), so the returned list is not in descending order of the
claim's score. -/
theorem get_model_rankings_not_claim_sorted :
    get_model_rankings perf_zero_avg ["a", "b"] = ["b", "a"] ∧
    score_model_claim perf_zero_avg "b" < score_model_claim perf_zero_avg "a" := by
  have pa : perf_zero_avg "a" =
      { success_count := 1, failure_count := 0, avg_response_time := 0, last_used := 0 } := rfl
  have pb : perf_zero_avg "b" =
      { success_count := 1, failure_count := 0, avg_response_time := 30, last_used := 0 } := rfl
  have ha : score_model perf_zero_avg "a" = 1 := by norm_num [score_model, pa]
  have hb : score_model perf_zero_avg "b" = 2 := by norm_num [score_model, pb]
  constructor
  · norm_num [get_model_rankings, rank_le, ha, hb]
  · norm_num [score_model_claim, pa, pb]

/-- C6 (amended): `get_model_rankings` returns the candidates as a
permutation of the input sorted in descending order of the score that is `0`
for a model with no recorded attempts and otherwise
`success_rate * (60 / max(effective_avg, 1))`, where `effective_avg` is the
recorded average response time when positive and `60` otherwise. -/
theorem get_model_rankings_sorted_desc (perf : PerfData) (models : List String) :
    (get_model_rankings perf models).Perm models ∧
    (get_model_rankings perf models).Pairwise
      (fun a b => score_model_amended perf b ≤ score_model_amended perf a) := by
  constructor
  · exact List.perm_insertionSort _ _
  · have h := List.sorted_insertionSort (rank_le perf) models
    exact h.imp fun hab => hab

/-- A list sorted by `idx_le` whose indices are pairwise distinct is strictly
sorted by index. -/
theorem pairwise_lt_of_sorted_idx_nodup (s : List (Nat × String))
    (hsort : List.Sorted idx_le s) (hnod : (s.map Prod.fst).Nodup) :
    s.Pairwise fun a b => a.1 < b.1 := by
  have hne : s.Pairwise fun a b : Nat × String => a.1 ≠ b.1 := List.pairwise_map.mp hnod
  exact (hsort.and hne).imp fun h => lt_of_le_of_ne h.1 h.2

/-- Two permuted lists with pairwise-distinct indices sort to the same list:
the sorted arrangement is unique. -/
theorem insertionSort_idx_eq_of_perm (l l' : List (Nat × String))
    (hnd : (l.map Prod.fst).Nodup) (hp : l.Perm l') :
    List.insertionSort idx_le l = List.insertionSort idx_le l' := by
  haveI : IsAntisymm (Nat × String) (fun a b => a.1 < b.1) :=
    ⟨fun _ _ h1 h2 => absurd (h1.trans h2) (lt_irrefl _)⟩
  have hnd1 : ((List.insertionSort idx_le l).map Prod.fst).Nodup :=
    (((List.perm_insertionSort idx_le l).map Prod.fst).nodup_iff).mpr hnd
  have hnd2 : ((List.insertionSort idx_le l').map Prod.fst).Nodup :=
    ((((List.perm_insertionSort idx_le l').map Prod.fst).trans
      ((hp.symm).map Prod.fst)).nodup_iff).mpr hnd
  exact List.eq_of_perm_of_sorted
    (((List.perm_insertionSort idx_le l).trans hp).trans
      (List.perm_insertionSort idx_le l').symm)
    (pairwise_lt_of_sorted_idx_nodup _ (List.sorted_insertionSort idx_le l) hnd1)
    (pairwise_lt_of_sorted_idx_nodup _ (List.sorted_insertionSort idx_le l') hnd2)

/-- C5: for segment results with pairwise-distinct indices, the combined text
is invariant under any permutation of the input (completion order), and it
equals the stripped non-empty texts taken in ascending index order joined by
a blank line. -/
theorem combine_segment_texts_order_independent (l l' : List (Nat × String))
    (hnd : (l.map Prod.fst).Nodup) (hp : l.Perm l') :
    combine_segment_texts l = combine_segment_texts l' ∧
    ∃ m, l.Perm m ∧ (m.Pairwise fun a b => a.1 < b.1) ∧
      combine_segment_texts l =
        String.intercalate "\n\n" ((m.map fun p => pyStrip p.2).filter fun t => t ≠ "") := by
  constructor
  · unfold combine_segment_texts
    rw [insertionSort_idx_eq_of_perm l l' hnd hp]
  · refine ⟨List.insertionSort idx_le l, (List.perm_insertionSort idx_le l).symm, ?_, rfl⟩
    exact pairwise_lt_of_sorted_idx_nodup _ (List.sorted_insertionSort idx_le l)
      (((List.perm_insertionSort idx_le l).map Prod.fst).nodup_iff.mpr hnd)

/-- Witness for C5: the same three segment results in two completion orders
(one with an empty segment) recombine to the same ascending-index text. -/
theorem combine_segment_texts_order_independent_witness :
    combine_segment_texts [(1, " b "), (0, "a"), (2, " \t")] =
      combine_segment_texts [(0, "a"), (2, " \t"), (1, " b ")] ∧
    combine_segment_texts [(1, " b "), (0, "a"), (2, " \t")] = "a\n\nb" := by
  have h := combine_segment_texts_order_independent
    [(1, " b "), (0, "a"), (2, " \t")] [(0, "a"), (2, " \t"), (1, " b ")]
    (by decide) (by decide)
  exact ⟨h.1, by decide⟩

/-- The text extracted by an attempt does not depend on the tracker state. -/
theorem run_attempt_fst (perf : PerfData) (model : String) (o : AttemptOutcome) (rt now : ℚ) :
    (run_attempt perf model o rt now).1 = attempt_text o := by
  cases o with
  | exc => rfl
  | http status parts =>
    by_cases hs : status = 200
    · subst hs
      by_cases hp : parts = []
      · simp [run_attempt, attempt_text, hp]
      · by_cases ht : pyStrip (String.join parts) = ""
        · simp [run_attempt, attempt_text, hp, ht]
        · simp [run_attempt, attempt_text, hp, ht]
    · simp [run_attempt, attempt_text, hs]

/-- C7 counterexample: an HTTP 200 response whose parsed content is
whitespace-only is recorded as neither a success nor a failure — the tracker
comes back identically unchanged, not with a failure recorded. -/
theorem run_attempt_200_whitespace_unrecorded :
    run_attempt empty_perf "llava:latest" (.http 200 [" ", "\n"]) 1 2 = (none, empty_perf) ∧
    (empty_perf "llava:latest").success_count = 0 ∧
    (empty_perf "llava:latest").failure_count = 0 :=
  ⟨rfl, rfl, rfl⟩

/-- C7 (amended): an attempt ending in a non-200 status or an exception
records exactly one failure; a 200 response with content fragments whose
concatenation strips to non-empty text records exactly one success and
returns that text; but a 200 response with no fragments or whitespace-only
text is recorded as neither — the tracker is returned unchanged. -/
theorem run_attempt_recording (perf : PerfData) (model : String) (o : AttemptOutcome)
    (response_time now : ℚ) :
    (o = .exc →
      run_attempt perf model o response_time now = (none, record_failure perf model now)) ∧
    (∀ status parts, o = .http status parts → status ≠ 200 →
      run_attempt perf model o response_time now = (none, record_failure perf model now)) ∧
    (∀ parts, o = .http 200 parts → parts ≠ [] → pyStrip (String.join parts) ≠ "" →
      run_attempt perf model o response_time now =
        (some (pyStrip (String.join parts)), record_success perf model response_time now)) ∧
    (∀ parts, o = .http 200 parts → (parts = [] ∨ pyStrip (String.join parts) = "") →
      run_attempt perf model o response_time now = (none, perf)) := by
  refine ⟨?_, ?_, ?_, ?_⟩
  · rintro rfl
    rfl
  · rintro status parts rfl hs
    simp [run_attempt, hs]
  · rintro parts rfl hp ht
    simp [run_attempt, hp, ht]
  · rintro parts rfl hcase
    rcases hcase with hp | ht
    · subst hp
      simp [run_attempt]
    · simp [run_attempt, ht]

/-- Witness for C7's amended theorem: a 500 response records one failure; a
200 response with content "hi" records one success and yields "hi". -/
theorem run_attempt_recording_witness :
    run_attempt empty_perf "llava:7b" (.http 500 ["x"]) 1 2 =
      (none, record_failure empty_perf "llava:7b" 2) ∧
    run_attempt empty_perf "llava:7b" (.http 200 ["hi"]) 1 2 =
      (some "hi", record_success empty_perf "llava:7b" 1 2) := by
  have h1 := run_attempt_recording empty_perf "llava:7b" (.http 500 ["x"]) 1 2
  have h2 := run_attempt_recording empty_perf "llava:7b" (.http 200 ["hi"]) 1 2
  refine ⟨h1.2.1 500 ["x"] rfl (by decide), ?_⟩
  have hs : pyStrip (String.join ["hi"]) = "hi" := by decide
  have := h2.2.2.1 ["hi"] rfl (by decide) (by rw [hs]; decide)
  rwa [hs] at this

/-- When every ranked attempt fails, the vision stage yields the empty text
and the failure method string, for any tracker state. -/
theorem process_single_image_advanced_all_fail (attempts : List Attempt)
    (h : ∀ a ∈ attempts, attempt_text a.2.1 = none) :
    ∀ perf, (process_single_image_advanced perf attempts).1 = "" ∧
      (process_single_image_advanced perf attempts).2.1 = "Advanced Vision OCR failed" := by
  induction attempts with
  | nil => exact fun perf => ⟨rfl, rfl⟩
  | cons a rest ih =>
    intro perf
    obtain ⟨model, o, rt, now⟩ := a
    have ha : attempt_text o = none := h _ (List.mem_cons_self _ _)
    rcases hr : run_attempt perf model o rt now with ⟨res, perf1⟩
    have hres : res = none := by
      have hf := run_attempt_fst perf model o rt now
      rw [hr, ha] at hf
      exact hf
    subst hres
    have ihr := ih (fun b hb => h b (List.mem_cons_of_mem _ hb)) perf1
    constructor
    · simpa only [process_single_image_advanced, hr] using ihr.1
    · simpa only [process_single_image_advanced, hr] using ihr.2

/-- C2 counterexample: with the Tesseract fallback enabled, a cache-missing
page whose Tesseract text is the non-empty (but ≤ 50 character) "hello" and
whose only ranked vision attempt fails ends with the empty page text and the
vision-failure method — the local OCR engine is not retried after the failed
vision attempts, which would have produced "hello". -/
theorem page_step_no_tesseract_retry :
    (page_step cfg_all_on empty_perf empty_cache env_short_tesseract).1 = "" ∧
    (page_step cfg_all_on empty_perf empty_cache env_short_tesseract).2.1 =
      "Advanced Vision OCR failed" ∧
    cfg_all_on.fallback_to_tesseract = true ∧
    extract_text_with_tesseract cfg_all_on env_short_tesseract.tesseractRaw = "hello" := by
  refine ⟨?_, ?_, rfl, ?_⟩ <;> decide

/-- C2 (amended): the advanced per-page pipeline consults the local OCR
engine exactly once, before the vision stage: on a cache miss its text
becomes the page text exactly when the stripped text exceeds 50 characters;
otherwise, when every ranked vision attempt fails, the page text is the
empty string — there is no second local OCR attempt after the vision stage,
even when the fallback is enabled and the Tesseract text is non-empty. -/
theorem page_step_tesseract_once_before_vision (cfg : ConvCfg) (perf : PerfData)
    (cache : Cache) (env : PageEnv)
    (hmiss : (get_cached_result cfg cache env.cacheKey).getD "" = "") :
    (extract_text_with_tesseract cfg env.tesseractRaw ≠ "" ∧
        (pyStrip (extract_text_with_tesseract cfg env.tesseractRaw)).length > 50 →
      (page_step cfg perf cache env).1 = extract_text_with_tesseract cfg env.tesseractRaw ∧
      (page_step cfg perf cache env).2.1 = "Traditional OCR (Tesseract)") ∧
    ((extract_text_with_tesseract cfg env.tesseractRaw = "" ∨
        (pyStrip (extract_text_with_tesseract cfg env.tesseractRaw)).length ≤ 50) →
      (∀ a ∈ env.attempts, attempt_text a.2.1 = none) →
      (page_step cfg perf cache env).1 = "" ∧
      (page_step cfg perf cache env).2.1 = "Advanced Vision OCR failed") := by
  constructor
  · intro hacc
    constructor <;> simp [page_step, hmiss, hacc.1, hacc.2]
  · intro hshort hvf
    have hv := process_single_image_advanced_all_fail env.attempts hvf perf
    have hcond : ¬(extract_text_with_tesseract cfg env.tesseractRaw ≠ "" ∧
        (pyStrip (extract_text_with_tesseract cfg env.tesseractRaw)).length > 50) := by
      rcases hshort with h | h
      · exact fun hc => hc.1 h
      · exact fun hc => absurd hc.2 (Nat.not_lt.mpr h)
    constructor <;> simp [page_step, hmiss, hcond, hv.1, hv.2]

/-- Witness for C2's amended theorem at the concrete failing page. -/
theorem page_step_tesseract_once_before_vision_witness :
    (page_step cfg_all_on empty_perf empty_cache env_short_tesseract).1 = "" := by
  have h := page_step_tesseract_once_before_vision cfg_all_on empty_perf empty_cache
    env_short_tesseract (by decide)
  exact (h.2 (by decide) (by decide)).1

/-- The text and method produced by the vision stage do not depend on the
tracker state (the tracker is only written, never read, inside the loop). -/
theorem process_single_image_advanced_components (attempts : List Attempt) :
    ∀ perf perf',
      (process_single_image_advanced perf attempts).1 =
        (process_single_image_advanced perf' attempts).1 ∧
      (process_single_image_advanced perf attempts).2.1 =
        (process_single_image_advanced perf' attempts).2.1 := by
  induction attempts with
  | nil => exact fun _ _ => ⟨rfl, rfl⟩
  | cons a rest ih =>
    intro perf perf'
    obtain ⟨model, o, rt, now⟩ := a
    rcases hr : run_attempt perf model o rt now with ⟨res, perf1⟩
    rcases hr2 : run_attempt perf' model o rt now with ⟨res2, perf2⟩
    have heq : res = res2 := by
      have h1 := run_attempt_fst perf model o rt now
      have h2 := run_attempt_fst perf' model o rt now
      rw [hr] at h1
      rw [hr2] at h2
      exact h1.trans h2.symm
    subst heq
    cases res with
    | some t =>
      constructor <;> simp only [process_single_image_advanced, hr, hr2]
    | none =>
      have h := ih perf1 perf2
      constructor
      · simpa only [process_single_image_advanced, hr, hr2] using h.1
      · simpa only [process_single_image_advanced, hr, hr2] using h.2

/-- The page text, method, and outgoing cache of one page step do not depend
on the tracker state. -/
theorem page_step_components_perf (cfg : ConvCfg) (cache : Cache) (env : PageEnv)
    (perf perf' : PerfData) :
    (page_step cfg perf cache env).1 = (page_step cfg perf' cache env).1 ∧
    (page_step cfg perf cache env).2.1 = (page_step cfg perf' cache env).2.1 ∧
    (page_step cfg perf cache env).2.2.2 = (page_step cfg perf' cache env).2.2.2 := by
  by_cases hc : (get_cached_result cfg cache env.cacheKey).getD "" = ""
  · by_cases ht : extract_text_with_tesseract cfg env.tesseractRaw ≠ "" ∧
        (pyStrip (extract_text_with_tesseract cfg env.tesseractRaw)).length > 50
    · refine ⟨?_, ?_, ?_⟩ <;> simp [page_step, hc, ht]
    · have h := process_single_image_advanced_components env.attempts perf perf'
      refine ⟨?_, ?_, ?_⟩ <;> simp [page_step, hc, ht, h.1, h.2]
  · refine ⟨?_, ?_, ?_⟩ <;> simp [page_step, hc]

/-- The per-page `(text, method)` list and the final cache of the page loop
do not depend on the initial tracker state. -/
theorem process_pages_components_perf (cfg : ConvCfg) (envs : List PageEnv) :
    ∀ perf perf' cache,
      (process_pages cfg perf cache envs).1 = (process_pages cfg perf' cache envs).1 ∧
      (process_pages cfg perf cache envs).2.2 = (process_pages cfg perf' cache envs).2.2 := by
  induction envs with
  | nil => exact fun _ _ _ => ⟨rfl, rfl⟩
  | cons env rest ih =>
    intro perf perf' cache
    have hs := page_step_components_perf cfg cache env perf perf'
    constructor
    · simp only [process_pages]
      rw [hs.1, hs.2.1, hs.2.2]
      exact congrArg _ (ih _ _ _).1
    · simp only [process_pages]
      rw [hs.2.2]
      exact (ih _ _ _).2

/-- A totally-failing page yields the empty text, the vision-failure method,
and leaves the cache untouched (nothing is written back for empty text). -/
theorem page_step_of_totally_fails (cfg : ConvCfg) (perf : PerfData) (cache : Cache)
    (env : PageEnv) (h : page_totally_fails cfg cache env) :
    (page_step cfg perf cache env).1 = "" ∧
    (page_step cfg perf cache env).2.1 = "Advanced Vision OCR failed" ∧
    (page_step cfg perf cache env).2.2.2 = cache := by
  obtain ⟨hmiss, hshort, hvf⟩ := h
  have hv := process_single_image_advanced_all_fail env.attempts hvf perf
  have hcond : ¬(extract_text_with_tesseract cfg env.tesseractRaw ≠ "" ∧
      (pyStrip (extract_text_with_tesseract cfg env.tesseractRaw)).length > 50) := by
    rcases hshort with h0 | h0
    · exact fun hacc => hacc.1 h0
    · exact fun hacc => absurd hacc.2 (Nat.not_lt.mpr h0)
  refine ⟨?_, ?_, ?_⟩ <;> simp [page_step, hmiss, hcond, hv.1, hv.2]

/-- C1: the image-based conversion is a total function of the page
environments (the per-page pipeline never raises), and a page for which the
cache misses, local OCR yields nothing usable, and every ranked vision model
fails contributes the empty string to the page-text list; the texts of every
other page are unaffected: replacing that page's environment by any other
totally-failing one leaves the entire page-text list, and hence the combined
markdown, unchanged. -/
theorem convert_page_failure_contained (cfg : ConvCfg) (perf : PerfData) (cache : Cache)
    (envs : List PageEnv) (i : Nat) (e' : PageEnv) (hi : i < envs.length)
    (hfail : page_totally_fails cfg (process_pages cfg perf cache (envs.take i)).2.2 envs[i])
    (hfail2 : page_totally_fails cfg (process_pages cfg perf cache (envs.take i)).2.2 e') :
    ((process_pages cfg perf cache envs).1.map Prod.fst)[i]? = some "" ∧
    (process_pages cfg perf cache (envs.set i e')).1.map Prod.fst =
      (process_pages cfg perf cache envs).1.map Prod.fst ∧
    (process_image_based_pdf_advanced cfg perf cache (envs.set i e')).markdown =
      (process_image_based_pdf_advanced cfg perf cache envs).markdown := by
  have main : ∀ (l : List PageEnv) (j : Nat) (p : PerfData) (c : Cache) (env0 : PageEnv),
      l[j]? = some env0 →
      page_totally_fails cfg (process_pages cfg p c (l.take j)).2.2 env0 →
      page_totally_fails cfg (process_pages cfg p c (l.take j)).2.2 e' →
      ((process_pages cfg p c l).1.map Prod.fst)[j]? = some "" ∧
      (process_pages cfg p c (l.set j e')).1.map Prod.fst =
        (process_pages cfg p c l).1.map Prod.fst := by
    intro l
    induction l with
    | nil =>
      intro j p c env0 hj
      simp at hj
    | cons env rest ih =>
      intro j p c env0 hj hf hf2
      cases j with
      | zero =>
        have henv : env0 = env := by
          have := hj
          simp at this
          exact this.symm
        subst henv
        have hf0 : page_totally_fails cfg c env0 := by simpa [process_pages] using hf
        have hf20 : page_totally_fails cfg c e' := by simpa [process_pages] using hf2
        have hstep := page_step_of_totally_fails cfg p c env0 hf0
        have hstep2 := page_step_of_totally_fails cfg p c e' hf20
        constructor
        · simp only [process_pages, List.map_cons, List.getElem?_cons_zero]
          rw [hstep.1]
        · simp only [List.set_cons_zero, process_pages, List.map_cons]
          rw [hstep.1, hstep2.1, hstep.2.2, hstep2.2.2]
          exact congrArg _ (congrArg (List.map Prod.fst)
            (process_pages_components_perf cfg rest
              (page_step cfg p c e').2.2.1 (page_step cfg p c env0).2.2.1 c).1)
      | succ j =>
        have hj2 : rest[j]? = some env0 := by simpa using hj
        have hf3 : page_totally_fails cfg
            (process_pages cfg (page_step cfg p c env).2.2.1
              (page_step cfg p c env).2.2.2 (rest.take j)).2.2 env0 := by
          simpa only [List.take_succ_cons, process_pages] using hf
        have hf4 : page_totally_fails cfg
            (process_pages cfg (page_step cfg p c env).2.2.1
              (page_step cfg p c env).2.2.2 (rest.take j)).2.2 e' := by
          simpa only [List.take_succ_cons, process_pages] using hf2
        have ihr := ih j (page_step cfg p c env).2.2.1 (page_step cfg p c env).2.2.2
          env0 hj2 hf3 hf4
        constructor
        · simp only [process_pages, List.map_cons, List.getElem?_cons_succ]
          exact ihr.1
        · simp only [List.set_cons_succ, process_pages, List.map_cons]
          exact congrArg _ ihr.2
  have h1 := main envs i perf cache envs[i] (List.getElem?_eq_getElem hi) hfail hfail2
  refine ⟨h1.1, h1.2, ?_⟩
  simp only [process_image_based_pdf_advanced]
  exact congrArg (combine_page_texts_from 0) h1.2

/-- Witness for C1: a two-page document whose second page totally fails still
processes and records the empty string for that page. -/
theorem convert_page_failure_contained_witness :
    ((process_pages cfg_all_on empty_perf empty_cache [env_good, env_fail]).1.map
      Prod.fst)[1]? = some "" := by
  have h := convert_page_failure_contained cfg_all_on empty_perf empty_cache
    [env_good, env_fail] 1 env_fail2 (by decide) (by decide) (by decide)
  exact h.1

/-- C8 counterexample: the advanced image-based conversion of a concrete
one-page document returns a result whose metadata is `none` — the metadata
dictionary (per-page methods, page count, per-page quality data) is built at
source lines 448–462 but never passed to the result constructor (lines
464–467), so the caller receives only the markdown. -/
theorem convert_metadata_dropped :
    (process_image_based_pdf_advanced cfg_all_on empty_perf empty_cache
      [env_good]).metadata = none :=
  rfl

/-- C8 (amended): for every image-based document the advanced `convert`
computes the metadata map of per-page processing methods and quality data,
but the returned result carries no metadata (`metadata = none`); only the
combined markdown is returned. -/
theorem convert_result_carries_no_metadata (cfg : ConvCfg) (perf : PerfData) (cache : Cache)
    (envs : List PageEnv) :
    (process_image_based_pdf_advanced cfg perf cache envs).metadata = none ∧
    (process_image_based_pdf_advanced cfg perf cache envs).markdown =
      combine_page_texts_from 0 ((process_pages cfg perf cache envs).1.map Prod.fst) ∧
    (build_image_pdf_metadata envs (process_pages cfg perf cache envs).1).processing_methods =
      (process_pages cfg perf cache envs).1.map Prod.snd ∧
    (build_image_pdf_metadata envs (process_pages cfg perf cache envs).1).quality_scores =
      envs.map fun e => e.qualityScore :=
  ⟨rfl, rfl, rfl, rfl⟩

theorem segCols_pos (w s : Nat) : 0 < segCols w s :=
  Nat.lt_of_lt_of_le Nat.one_pos (Nat.le_max_left 1 _)

theorem segRows_pos (h s : Nat) : 0 < segRows h s :=
  Nat.lt_of_lt_of_le Nat.one_pos (Nat.le_max_left 1 _)

theorem segCols_le (w s : Nat) (hw : 0 < w) : segCols w s ≤ w :=
  max_le hw (Nat.div_le_self w s)

theorem segRows_le (h s : Nat) (hh : 0 < h) : segRows h s ≤ h :=
  max_le hh (Nat.div_le_self h s)

/-- Division and remainder of a row-major grid index. -/
theorem grid_flat_index (m k c : Nat) (hm : 0 < m) (hc : c < m) :
    (k * m + c) / m = k ∧ (k * m + c) % m = c := by
  constructor
  · rw [Nat.add_comm, Nat.mul_comm k m, Nat.add_mul_div_left c k hm, Nat.div_eq_of_lt hc,
      Nat.zero_add]
  · rw [Nat.add_comm, Nat.mul_comm k m, Nat.add_mul_mod_self_left]
    exact Nat.mod_eq_of_lt hc

/-- Flattening a row-major double loop over ranges into a single range. -/
theorem range_flatMap_map {α : Type} (n m : Nat) (hm : 0 < m) (f : Nat → Nat → α) :
    ((List.range n).flatMap fun r => (List.range m).map fun c => f r c) =
      (List.range (n * m)).map fun i => f (i / m) (i % m) := by
  induction n with
  | zero => simp
  | succ k ih =>
    rw [List.range_succ, List.flatMap_append, List.flatMap_singleton, ih, Nat.succ_mul,
      List.range_add, List.map_append, List.map_map]
    refine congrArg _ ?_
    refine (List.map_congr_left fun c hc => ?_).symm
    have hcm : c < m := List.mem_range.mp hc
    have hg := grid_flat_index m k c hm hcm
    simp only [Function.comp_apply]
    rw [hg.1, hg.2]

/-- The segment list is the row-major map over a single index range. -/
theorem create_image_segments_eq (w h s : Nat) :
    create_image_segments w h s =
      (List.range (segRows h s * segCols w s)).map
        fun i => segBox w h s (i / segCols w s) (i % segCols w s) :=
  range_flatMap_map (segRows h s) (segCols w s) (segCols_pos w s)
    fun row col => segBox w h s row col

theorem segBox_left (w h s row col : Nat) :
    (segBox w h s row col).left = col * (w / segCols w s) := rfl

theorem segBox_top (w h s row col : Nat) :
    (segBox w h s row col).top = row * (h / segRows h s) := rfl

theorem segBox_right (w h s row col : Nat) :
    (segBox w h s row col).right =
      if col < segCols w s - 1 then col * (w / segCols w s) + w / segCols w s else w := rfl

theorem segBox_bottom (w h s row col : Nat) :
    (segBox w h s row col).bottom =
      if row < segRows h s - 1 then row * (h / segRows h s) + h / segRows h s else h := rfl

/-- Each one-dimensional cell ends within the total extent. -/
theorem cell_stop_le_total (total cells c : Nat) (hcl : c < cells) :
    (if c < cells - 1 then c * (total / cells) + total / cells else total) ≤ total := by
  split
  case isTrue hlt =>
    have e : c * (total / cells) + total / cells = (c + 1) * (total / cells) :=
      (Nat.succ_mul c (total / cells)).symm
    have h2 : (c + 1) * (total / cells) ≤ cells * (total / cells) :=
      Nat.mul_le_mul_right _ hcl
    have h3 : cells * (total / cells) ≤ total := by
      rw [Nat.mul_comm]
      exact Nat.div_mul_le_self total cells
    omega
  case isFalse hlt => exact Nat.le_refl total

/-- Every coordinate below the total extent lies in some one-dimensional
cell of the grid. -/
theorem cell_exists (total cells x : Nat) (hc : 0 < cells) (hct : cells ≤ total)
    (hx : x < total) :
    ∃ c, c < cells ∧ c * (total / cells) ≤ x ∧
      (x < if c < cells - 1 then c * (total / cells) + total / cells else total) := by
  have hk : 0 < total / cells := (Nat.le_div_iff_mul_le hc).mpr (by omega)
  by_cases hcase : x / (total / cells) < cells - 1
  · refine ⟨x / (total / cells), by omega, Nat.div_mul_le_self x _, ?_⟩
    rw [if_pos hcase]
    have hmod := Nat.div_add_mod x (total / cells)
    have hlt : x % (total / cells) < total / cells := Nat.mod_lt x hk
    have hcomm : (total / cells) * (x / (total / cells)) =
        x / (total / cells) * (total / cells) := Nat.mul_comm _ _
    omega
  · refine ⟨cells - 1, by omega, ?_, ?_⟩
    · have hle : cells - 1 ≤ x / (total / cells) := by omega
      exact (Nat.le_div_iff_mul_le hk).mp hle
    · rw [if_neg (lt_irrefl _)]
      exact hx

/-- Distinct one-dimensional cells are disjoint. -/
theorem cell_disjoint (total cells c1 c2 x : Nat) (h2 : c2 < cells) (hlt : c1 < c2)
    (e1 : x < if c1 < cells - 1 then c1 * (total / cells) + total / cells else total)
    (s2 : c2 * (total / cells) ≤ x) : False := by
  have hc1 : c1 < cells - 1 := by omega
  rw [if_pos hc1] at e1
  have e : c1 * (total / cells) + total / cells = (c1 + 1) * (total / cells) :=
    (Nat.succ_mul c1 (total / cells)).symm
  have m1 : (c1 + 1) * (total / cells) ≤ c2 * (total / cells) :=
    Nat.mul_le_mul_right _ hlt
  omega

/-- A coordinate determines its one-dimensional cell uniquely. -/
theorem cell_unique (total cells c1 c2 x : Nat) (h1 : c1 < cells) (h2 : c2 < cells)
    (s1 : c1 * (total / cells) ≤ x)
    (e1 : x < if c1 < cells - 1 then c1 * (total / cells) + total / cells else total)
    (s2 : c2 * (total / cells) ≤ x)
    (e2 : x < if c2 < cells - 1 then c2 * (total / cells) + total / cells else total) :
    c1 = c2 := by
  rcases Nat.lt_trichotomy c1 c2 with hlt | heq | hgt
  · exact (cell_disjoint total cells c1 c2 x h2 hlt e1 s2).elim
  · exact heq
  · exact (cell_disjoint total cells c2 c1 x h1 hgt e2 s1).elim

/-- C3: for a positive image whose largest dimension exceeds the segment
size, the segmenter emits exactly `rows * cols` crop boxes in row-major
order; interior cells have the uniform `width // cols × height // rows` size
while the last row and column extend to the image edge; every box lies
inside the image bounds; and every pixel of the image lies in exactly one
box — the boxes are pairwise disjoint and their union is exactly the image
bounds. -/
theorem create_image_segments_tile (w h s : Nat)
    (hw : 0 < w) (hh : 0 < h) (hs : 0 < s) (hbig : s < max w h) :
    (create_image_segments w h s).length = segRows h s * segCols w s ∧
    (∀ row col, row < segRows h s → col < segCols w s →
      (create_image_segments w h s)[row * segCols w s + col]? =
        some (segBox w h s row col)) ∧
    (∀ row col, row < segRows h s - 1 → col < segCols w s - 1 →
      (segBox w h s row col).right - (segBox w h s row col).left = w / segCols w s ∧
      (segBox w h s row col).bottom - (segBox w h s row col).top = h / segRows h s) ∧
    (∀ row col, (col = segCols w s - 1 → (segBox w h s row col).right = w) ∧
      (row = segRows h s - 1 → (segBox w h s row col).bottom = h)) ∧
    (∀ b ∈ create_image_segments w h s, ∀ x y, inSegBox b x y → x < w ∧ y < h) ∧
    (∀ x y, x < w → y < h →
      ∃! i : Nat, ∃ b, (create_image_segments w h s)[i]? = some b ∧ inSegBox b x y) := by
  have hcpos := segCols_pos w s
  have hrpos := segRows_pos h s
  have hcle : segCols w s ≤ w := segCols_le w s hw
  have hrle : segRows h s ≤ h := segRows_le h s hh
  have hidx : ∀ i, i < segRows h s * segCols w s →
      (create_image_segments w h s)[i]? =
        some (segBox w h s (i / segCols w s) (i % segCols w s)) := by
    intro i hiN
    rw [create_image_segments_eq, List.getElem?_map, List.getElem?_range hiN]
    rfl
  have hgridlt : ∀ row col, row < segRows h s → col < segCols w s →
      row * segCols w s + col < segRows h s * segCols w s := by
    intro row col hr hc
    have e : row * segCols w s + segCols w s = (row + 1) * segCols w s :=
      (Nat.succ_mul row (segCols w s)).symm
    have h2 : (row + 1) * segCols w s ≤ segRows h s * segCols w s :=
      Nat.mul_le_mul_right _ hr
    omega
  refine ⟨?_, ?_, ?_, ?_, ?_, ?_⟩
  · rw [create_image_segments_eq]
    simp
  · intro row col hr hc
    rw [hidx _ (hgridlt row col hr hc)]
    have hg := grid_flat_index (segCols w s) row col hcpos hc
    rw [hg.1, hg.2]
  · intro row col hr hc
    constructor
    · rw [segBox_right, segBox_left, if_pos hc]
      exact Nat.add_sub_cancel_left _ _
    · rw [segBox_bottom, segBox_top, if_pos hr]
      exact Nat.add_sub_cancel_left _ _
  · intro row col
    constructor
    · intro hcol
      subst hcol
      rw [segBox_right, if_neg (lt_irrefl _)]
    · intro hrow
      subst hrow
      rw [segBox_bottom, if_neg (lt_irrefl _)]
  · intro b hb x y hin
    rw [create_image_segments_eq] at hb
    obtain ⟨i, hi, rfl⟩ := List.mem_map.mp hb
    obtain ⟨hl, hr2, ht2, hb2⟩ := hin
    rw [segBox_right] at hr2
    rw [segBox_bottom] at hb2
    constructor
    · exact Nat.lt_of_lt_of_le hr2
        (cell_stop_le_total w (segCols w s) _ (Nat.mod_lt _ hcpos))
    · have hjr : i / segCols w s < segRows h s := by
        rw [Nat.div_lt_iff_lt_mul hcpos]
        exact List.mem_range.mp hi
      exact Nat.lt_of_lt_of_le hb2 (cell_stop_le_total h (segRows h s) _ hjr)
  · intro x y hx hy
    obtain ⟨col, hcol, hcs, hce⟩ := cell_exists w (segCols w s) x hcpos hcle hx
    obtain ⟨row, hrow, hrs, hre⟩ := cell_exists h (segRows h s) y hrpos hrle hy
    have hg := grid_flat_index (segCols w s) row col hcpos hcol
    refine ⟨row * segCols w s + col, ⟨segBox w h s row col, ?_, ?_, ?_, ?_, ?_⟩, ?_⟩
    · rw [hidx _ (hgridlt row col hrow hcol)]
      rw [hg.1, hg.2]
    · rw [segBox_left]
      exact hcs
    · rw [segBox_right]
      exact hce
    · rw [segBox_top]
      exact hrs
    · rw [segBox_bottom]
      exact hre
    · rintro j ⟨b, hb, hin⟩
      have hjN : j < segRows h s * segCols w s := by
        by_contra hcon
        rw [create_image_segments_eq, List.getElem?_map,
          List.getElem?_eq_none (by simpa using Nat.le_of_not_lt hcon)] at hb
        exact Option.noConfusion hb
      rw [hidx j hjN] at hb
      have hbeq : b = segBox w h s (j / segCols w s) (j % segCols w s) := by
        injection hb with hb2
        exact hb2.symm
      subst hbeq
      obtain ⟨hl, hr2, ht2, hb2⟩ := hin
      rw [segBox_left] at hl
      rw [segBox_right] at hr2
      rw [segBox_top] at ht2
      rw [segBox_bottom] at hb2
      have hjc : j % segCols w s < segCols w s := Nat.mod_lt _ hcpos
      have hjr : j / segCols w s < segRows h s := by
        rw [Nat.div_lt_iff_lt_mul hcpos]
        exact hjN
      have hceq : j % segCols w s = col :=
        cell_unique w (segCols w s) _ col x hjc hcol hl hr2 hcs hce
      have hreq : j / segCols w s = row :=
        cell_unique h (segRows h s) _ row y hjr hrow ht2 hb2 hrs hre
      have e := Nat.div_add_mod j (segCols w s)
      rw [hceq, hreq] at e
      rw [← e, Nat.mul_comm (segCols w s) row]

/-- Witness for C3 at the 2000×1600 image with segment size 800 from the
specification's scenario C: a 2×2 grid of four segments. -/
theorem create_image_segments_tile_witness :
    (create_image_segments 2000 1600 800).length = 4 := by
  have hthm := create_image_segments_tile 2000 1600 800
    (by decide) (by decide) (by decide) (by decide)
  exact hthm.1.trans (by decide)

/-- Witness for C4 at a concrete set of metric values. -/
theorem assess_image_quality_score_witness :
    assess_image_quality (some ⟨2000000, 100, 128, 500, 1/10, 30⟩) =
      min 100 (max 0 (quality_score_spec 2000000 100 500 (1/10) 30)) ∧
    0 ≤ assess_image_quality (some ⟨2000000, 100, 128, 500, 1/10, 30⟩) := by
  have h := assess_image_quality_score (some ⟨2000000, 100, 128, 500, 1/10, 30⟩)
  refine ⟨?_, h.1⟩
  simpa using h.2.2.1 ⟨2000000, 100, 128, 500, 1/10, 30⟩ rfl

end MarkItDown
